import Mathlib

/-!
Verification of the Agentic-RentingSystem order service
(`services/order_services.py`) against its natural-language specification.

Modelling conventions of the shallow embedding:
* A timezone-aware or naive Python `datetime` is a `PyDateTime`: a wall-clock
  reading in minutes together with an optional UTC offset in minutes
  (`none` = naive).  `_to_utc` is embedded as `to_utc`; after normalization a
  datetime is identified with its UTC instant, an `Int` number of minutes.
  `timedelta(hours=h)` is `60 * h`; `timedelta(days=d)` is `1440 * d`.
* `datetime.isoformat` is abstracted by `dt_iso` (any injective rendering of a
  UTC instant; the text-level claims only depend on which slots are listed).
* Python `str.strip().upper()` (ASCII) is embedded as `strip_upper` over the
  character list of the string, so that it evaluates inside the kernel.
* The store is a list of `OrderModel` rows; each service call is a function
  from the store to `Except SvcError (store, result)`, so a failing call
  returns no new store and trivially leaves previous rows unchanged.
* The PostgreSQL schema (`db/init/init.sql`) is not part of `src/`; its
  constraints (unique `order_id`, exclusion on the buffered occupied range
  per SKU for occupying rows, the `shipped`-requires-`locker_code` check) are
  modelled from the spec, see `dbInsert`/`dbUpdate`.
-/

namespace RentingSystem

/-- Embedding of a Python `datetime`: wall-clock minutes plus optional UTC
offset in minutes (`none` = naive datetime). -/
structure PyDateTime where
  wall : Int
  off : Option Int
deriving DecidableEq, Repr

/-- `_to_utc` from `order_services.py`: a naive datetime is reinterpreted as
UTC; an aware one is converted to UTC (same instant, offset 0). -/
def to_utc (d : PyDateTime) : PyDateTime :=
  match d.off with
  | none => ⟨d.wall, some 0⟩
  | some o => ⟨d.wall - o, some 0⟩

/-- `_iso_to_dt_utc` on a datetime argument, identified with the resulting UTC
instant in minutes. -/
def iso_to_dt_utc (d : PyDateTime) : Int :=
  (to_utc d).wall

/-- `TimeRange` from `order_types`: a half-open interval of UTC instants. -/
structure TimeRange where
  start_at : Int
  end_at : Int
deriving DecidableEq, Repr

/-- `OCCUPYING_STATUSES` from `order_types`. -/
def OCCUPYING_STATUSES : List String :=
  ["reserved", "paid", "shipped", "overdue"]

/-- `TERMINAL_STATUSES` from `order_types`. -/
def TERMINAL_STATUSES : List String :=
  ["successful", "canceled"]

/-- `OrderModel` from `services/models.py` (the ORM row for the `orders`
table); the generated `occupied` range column is derived, not stored. -/
structure OrderModel where
  order_id : String
  user_name : String
  user_wechat : String
  sku : String
  start_at : Int
  end_at : Int
  buffer_hours : Int
  status : String
  locker_code : Option String
  created_at : Int
  updated_at : Int
deriving DecidableEq, Repr

/-- `Order` dataclass from `order_types` (field names as used by
`_model_to_order`, `order_to_text` and the tests). -/
structure Order where
  order_id : String
  user_name : String
  user_wechat : String
  sku : String
  start_at_iso : Int
  end_at_iso : Int
  buffer_hours : Int
  status : String
  locker_code : Option String
  created_at : Int
  updated_at : Int
deriving DecidableEq, Repr

/-- The service-layer exception taxonomy from `order_types`. -/
inductive SvcError where
  | validationError
  | notFoundError
  | terminalOrderError
  | conflictError
  | constraintError
deriving DecidableEq, Repr

/-- The psycopg `IntegrityError` subclasses distinguished by the service. -/
inductive PgViolation where
  | uniqueViolation
  | exclusionViolation
  | checkViolation
deriving DecidableEq, Repr

/-- The order store: the rows of the `orders` table in insertion order. -/
abbrev DB := List OrderModel

/-- `DEFAULT_BUFFER_HOURS` from `order_services.py`. -/
def DEFAULT_BUFFER_HOURS : Int := 3

/-- Python's default `str.isspace` characters that occur in practice. -/
def pyIsSpace (c : Char) : Bool :=
  c == ' ' || c == '\t' || c == '\n' || c == '\r'

/-- Embedding of Python `s.strip().upper()` (ASCII), as applied to SKUs. -/
def strip_upper (s : String) : String :=
  String.mk ((((s.data.dropWhile pyIsSpace).reverse.dropWhile pyIsSpace).reverse).map Char.toUpper)

/-- `_model_to_order` from `order_services.py`; on stored rows the
`_iso_to_dt_utc` re-normalization is the identity, since rows are stored in
UTC. -/
def model_to_order (row : OrderModel) : Order :=
  { order_id := row.order_id
    user_name := row.user_name
    user_wechat := row.user_wechat
    sku := row.sku
    start_at_iso := row.start_at
    end_at_iso := row.end_at
    buffer_hours := row.buffer_hours
    status := row.status
    locker_code := row.locker_code
    created_at := row.created_at
    updated_at := row.updated_at }

/-- The buffered occupancy start `start_at - buffer_hours` of a row. -/
def bufferedStart (r : OrderModel) : Int := r.start_at - 60 * r.buffer_hours

/-- The buffered occupancy end `end_at + buffer_hours` of a row. -/
def bufferedEnd (r : OrderModel) : Int := r.end_at + 60 * r.buffer_hours

/-- Whether a row's status counts toward interval exclusivity. -/
def occupiesB (r : OrderModel) : Bool := decide (r.status ∈ OCCUPYING_STATUSES)

/-- Modelled from the spec: two rows violate the `(sku, occupied-range)`
exclusion constraint of the `orders` table (the constraint itself lives in
`db/init/init.sql`, which is not under `src/`) when both are occupying, share
a SKU, and their half-open buffered ranges intersect. -/
def rowsConflict (a b : OrderModel) : Bool :=
  a.sku == b.sku && occupiesB a && occupiesB b &&
  decide (bufferedStart a < bufferedEnd b) && decide (bufferedStart b < bufferedEnd a)

/-- Modelled from the spec: the check constraint requiring a non-empty
`locker_code` once `status` is `shipped` (§7 of the spec; schema not under
`src/`). -/
def shippedWithoutLocker (r : OrderModel) : Bool :=
  r.status == "shipped" && (r.locker_code.getD "" == "")

/-- Modelled from the spec: inserting a row into the `orders` table.  The
store raises `UniqueViolation` on a duplicate `order_id`, `ExclusionViolation`
when the buffered occupied range of an occupying row overlaps another
occupying row of the same SKU, and `CheckViolation` for the `shipped` ⇒
`locker_code` check; on success the server fills `created_at`/`updated_at`
with `now()` and appends the row. -/
def dbInsert (now : Int) (db : DB) (row : OrderModel) :
    Except PgViolation (DB × OrderModel) :=
  if db.any (fun r => r.order_id == row.order_id) then .error .uniqueViolation
  else if db.any (fun r => rowsConflict r row) then .error .exclusionViolation
  else if shippedWithoutLocker row then .error .checkViolation
  else
    let stored := { row with created_at := now, updated_at := now }
    .ok (db ++ [stored], stored)

/-- Replace the row keyed by `order_id` (unique in the store) by `u`. -/
def replaceRow (db : DB) (oid : String) (u : OrderModel) : DB :=
  db.map fun r => if r.order_id == oid then u else r

/-- Modelled from the spec: updating the row keyed by `oid` to the new value
`u`; the exclusion and check constraints are re-evaluated against the state
after the update (`u` against every other row). -/
def dbUpdate (db : DB) (oid : String) (u : OrderModel) : Except PgViolation DB :=
  if db.any (fun r => !(r.order_id == oid) && rowsConflict r u) then .error .exclusionViolation
  else if shippedWithoutLocker u then .error .checkViolation
  else .ok (replaceRow db oid u)

/-- Delete the row keyed by `oid` (unique in the store). -/
def deleteRow (db : DB) (oid : String) : DB :=
  db.filter fun r => !(r.order_id == oid)

/-- The row built by `add_order_to_db`'s `payload` dict before insertion
(`created_at`/`updated_at` are absent from the payload and set by the server;
the `0` placeholders are overwritten by `dbInsert`). -/
def newOrderRow (order_id user_name user_wechat sku : String)
    (start_at end_at : PyDateTime) (status : String)
    (buffer_hours : Option Int) (locker_code : Option String) : OrderModel :=
  { order_id, user_name, user_wechat
    sku := strip_upper sku
    start_at := iso_to_dt_utc start_at
    end_at := iso_to_dt_utc end_at
    status
    buffer_hours := buffer_hours.getD DEFAULT_BUFFER_HOURS
    locker_code
    created_at := 0
    updated_at := 0 }

/-- `add_order_to_db` from `order_services.py`: normalize the times to UTC,
validate `start < end` (`_validate_time_range`), normalize the SKU, insert;
`UniqueViolation`/`ExclusionViolation` become `ConflictError`,
`CheckViolation` becomes `ConstraintError`. -/
def add_order_to_db (now : Int) (db : DB)
    (order_id user_name user_wechat sku : String)
    (start_at end_at : PyDateTime) (status : String)
    (buffer_hours : Option Int) (locker_code : Option String) :
    Except SvcError (DB × Order) :=
  if iso_to_dt_utc start_at ≥ iso_to_dt_utc end_at then .error .validationError
  else
    match dbInsert now db
        (newOrderRow order_id user_name user_wechat sku start_at end_at status
          buffer_hours locker_code) with
    | .error .uniqueViolation => .error .conflictError
    | .error .exclusionViolation => .error .conflictError
    | .error .checkViolation => .error .constraintError
    | .ok (db', stored) => .ok (db', model_to_order stored)

/-- A patch dict for `edit_order_from_db`; `none` means the key is absent.
(`order_id` and the derived `occupied` column are never patched by any
caller in the repository.) -/
structure Patch where
  start_at : Option PyDateTime := none
  end_at : Option PyDateTime := none
  sku : Option String := none
  status : Option String := none
  locker_code : Option (Option String) := none
  user_name : Option String := none
  user_wechat : Option String := none
  buffer_hours : Option Int := none
  created_at : Option Int := none
  updated_at : Option Int := none
deriving DecidableEq, Repr

/-- Python `not patch` on the incoming dict. -/
def Patch.isEmptyAll (p : Patch) : Bool :=
  p.start_at.isNone && p.end_at.isNone && p.sku.isNone && p.status.isNone &&
  p.locker_code.isNone && p.user_name.isNone && p.user_wechat.isNone &&
  p.buffer_hours.isNone && p.created_at.isNone && p.updated_at.isNone

/-- Python `not patch` after the server-owned keys `created_at`/`updated_at`
have been popped. -/
def Patch.isEmptyAfterStrip (p : Patch) : Bool :=
  p.start_at.isNone && p.end_at.isNone && p.sku.isNone && p.status.isNone &&
  p.locker_code.isNone && p.user_name.isNone && p.user_wechat.isNone &&
  p.buffer_hours.isNone

/-- `patch.get("start_at", existing.start_at)` normalized to UTC: the
effective start used by `edit_order_from_db` for validation and update. -/
def patchedStart (existing : OrderModel) (p : Patch) : Int :=
  match p.start_at with | some d => iso_to_dt_utc d | none => existing.start_at

/-- `patch.get("end_at", existing.end_at)` normalized to UTC. -/
def patchedEnd (existing : OrderModel) (p : Patch) : Int :=
  match p.end_at with | some d => iso_to_dt_utc d | none => existing.end_at

/-- The `setattr` loop of `edit_order_from_db`: the existing row with every
present (non-stripped) patch key applied; absent time keys fall back to the
existing values exactly as `patch.get("start_at", existing.start_at)` does. -/
def applyPatchRow (existing : OrderModel) (p : Patch) : OrderModel :=
  { existing with
    start_at := patchedStart existing p
    end_at := patchedEnd existing p
    sku := match p.sku with | some s => strip_upper s | none => existing.sku
    status := p.status.getD existing.status
    locker_code := p.locker_code.getD existing.locker_code
    user_name := p.user_name.getD existing.user_name
    user_wechat := p.user_wechat.getD existing.user_wechat
    buffer_hours := p.buffer_hours.getD existing.buffer_hours }

/-- `edit_order_from_db` from `order_services.py`: reject an empty patch,
a missing order, a terminal order; re-validate the effective time range when
the patch touches it; strip the server-owned keys and reject the patch if
nothing remains; apply the update, translating `ExclusionViolation` to
`ConflictError` and other integrity errors to `ConstraintError`. -/
def edit_order_from_db (db : DB) (order_id : String) (patch : Patch) :
    Except SvcError (DB × Order) :=
  if patch.isEmptyAll then .error .validationError
  else
    match db.find? (fun r => r.order_id == order_id) with
    | none => .error .notFoundError
    | some existing =>
      if existing.status ∈ TERMINAL_STATUSES then .error .terminalOrderError
      else
        if (patch.start_at.isSome || patch.end_at.isSome) &&
            decide (patchedStart existing patch ≥ patchedEnd existing patch) then
          .error .validationError
        else if patch.isEmptyAfterStrip then .error .validationError
        else
          match dbUpdate db order_id (applyPatchRow existing patch) with
          | .error .exclusionViolation => .error .conflictError
          | .error .checkViolation => .error .constraintError
          | .error .uniqueViolation => .error .constraintError
          | .ok db' => .ok (db', model_to_order (applyPatchRow existing patch))

/-- `cancel_order` from `order_services.py`: hard delete removes the row
keyed by `order_id` and returns the old row; soft cancel patches the status
to `canceled` through `edit_order_from_db`. -/
def cancel_order (db : DB) (order_id : String) (hard_delete : Bool) :
    Except SvcError (DB × Order) :=
  if hard_delete then
    match db.find? (fun r => r.order_id == order_id) with
    | none => .error .notFoundError
    | some existing => .ok (deleteRow db order_id, model_to_order existing)
  else
    edit_order_from_db db order_id { status := some "canceled" }

/-- `mark_order_paid` from `order_services.py`. -/
def mark_order_paid (db : DB) (order_id : String) : Except SvcError (DB × Order) :=
  edit_order_from_db db order_id { status := some "paid" }

/-- `finish_order` from `order_services.py`. -/
def finish_order (db : DB) (order_id : String) : Except SvcError (DB × Order) :=
  edit_order_from_db db order_id { status := some "successful" }

/-- `deliver_order` from `order_services.py`: an empty `locker_code` is
rejected before any storage access; otherwise status `shipped` and the locker
code are patched through `edit_order_from_db`. -/
def deliver_order (db : DB) (order_id : String) (locker_code : String) :
    Except SvcError (DB × Order) :=
  if locker_code == "" then .error .validationError
  else
    edit_order_from_db db order_id
      { status := some "shipped", locker_code := some (some locker_code) }

/-- `get_order_detail` from `order_services.py`. -/
def get_order_detail (db : DB) (order_id : String) : Except SvcError Order :=
  match db.find? (fun r => r.order_id == order_id) with
  | none => .error .notFoundError
  | some row => .ok (model_to_order row)

/-- The loop of `_merge_time_ranges` after the first range has been placed in
`merged`: `last` is the mutable `merged[-1]`. -/
def mergeAux (last : TimeRange) : List TimeRange → List TimeRange
  | [] => [last]
  | c :: rest =>
    if c.start_at ≤ last.end_at then
      mergeAux ⟨last.start_at, max last.end_at c.end_at⟩ rest
    else
      last :: mergeAux c rest

/-- `_merge_time_ranges` from `order_services.py` (input must be sorted by
start; overlapping or adjacent ranges coalesce into
`[last.start, max(last.end, current.end)]`). -/
def merge_time_ranges : List TimeRange → List TimeRange
  | [] => []
  | r :: rest => mergeAux r rest

/-- Stable insertion of a range into a list sorted by `start_at` (the new
element goes before later elements with an equal key, as in Python's stable
`list.sort`). -/
def insertByStart (r : TimeRange) : List TimeRange → List TimeRange
  | [] => [r]
  | x :: xs => if x.start_at < r.start_at then x :: insertByStart r xs else r :: x :: xs

/-- `occupied.sort(key=lambda r: r.start_at)` from `suggest_time_slots_text`:
a stable sort by `start_at`. -/
def sortByStart : List TimeRange → List TimeRange
  | [] => []
  | r :: rs => insertByStart r (sortByStart rs)

/-- The cursor loop of `suggest_time_slots_text` computing the free gaps of
the merged occupied timeline within `[cursor, window_end)`. -/
def gapsAux (cursor : Int) (blocks : List TimeRange) (window_end : Int) :
    List TimeRange :=
  match blocks with
  | [] => if cursor < window_end then [⟨cursor, window_end⟩] else []
  | b :: rest =>
    (if cursor < b.start_at then [(⟨cursor, b.start_at⟩ : TimeRange)] else []) ++
      gapsAux (max cursor b.end_at) rest window_end

/-- Abstraction of `datetime.isoformat` on a UTC instant (any injective
rendering; the claims about the suggestion text only depend on which slots
are listed, not on the concrete timestamp syntax). -/
def dt_iso (t : Int) : String := toString t

/-- `_format_slots_text` from `order_services.py`. -/
def format_slots_text (sku : String) (window_start window_end : Int)
    (slots : List TimeRange) : String :=
  let sku := strip_upper sku
  if slots.isEmpty then
    "SKU " ++ sku ++ " 在 " ++ dt_iso window_start ++ " 到 " ++ dt_iso window_end ++
      " 内无可供选择的时间段。"
  else
    String.intercalate "\n"
      (("SKU " ++ sku ++ " 可供选择的时间段（" ++ dt_iso window_start ++ " 至 " ++
          dt_iso window_end ++ "）：") ::
        slots.map fun slot =>
          "- " ++ dt_iso slot.start_at ++ " 到 " ++ dt_iso slot.end_at)

/-- The occupied-interval collection loop of `suggest_time_slots_text`:
occupying rows of the SKU, inflated by their buffer on both ends, keeping
only intervals intersecting `[window_start, window_end)`.  (The code skips
the inflation arithmetic when `buffer_hours` is `0`, which yields the same
interval.) -/
def occupiedRanges (db : DB) (sku : String) (window_start window_end : Int) :
    List TimeRange :=
  ((db.filter fun r => r.sku == sku && occupiesB r).map fun r =>
      (⟨bufferedStart r, bufferedEnd r⟩ : TimeRange)).filter
    fun t => !(decide (t.end_at ≤ window_start) || decide (t.start_at ≥ window_end))

/-- `window_days = max(0, min(7, window_days))` in `suggest_time_slots_text`. -/
def suggest_clamp_days (window_days : Int) : Int := max 0 (min 7 window_days)

/-- The window start of `suggest_time_slots_text`: `expected_start` minus the
clamped window, floored at `now`. -/
def suggest_window_start (now expected_start days : Int) : Int :=
  if expected_start - 1440 * days < now then now else expected_start - 1440 * days

/-- The window end of `suggest_time_slots_text`. -/
def suggest_window_end (expected_end days : Int) : Int :=
  expected_end + 1440 * days

/-- The slot pipeline of `suggest_time_slots_text` on the main path: sort the
kept occupied intervals, merge them, walk the gaps, keep gaps that fit the
requested duration. -/
def suggest_slots (db : DB) (sku : String) (window_start window_end duration : Int) :
    List TimeRange :=
  (gapsAux window_start
      (merge_time_ranges (sortByStart (occupiedRanges db sku window_start window_end)))
      window_end).filter
    fun slot => decide (duration ≤ slot.end_at - slot.start_at)

/-- `suggest_time_slots_text` from `order_services.py`; `now` stands for
`datetime.now(tz=UTC_TZ)`. -/
def suggest_time_slots_text (now : Int) (db : DB) (sku : String)
    (expected_start_at : PyDateTime) (expected_end_at : Option PyDateTime)
    (window_days : Int) : Except SvcError String :=
  let sku := strip_upper sku
  let expected_start := iso_to_dt_utc expected_start_at
  match expected_end_at with
  | none =>
    suggestCore now db sku expected_start (expected_start + 60 * 3) window_days
  | some d =>
    let expected_end := iso_to_dt_utc d
    if expected_start ≥ expected_end then .error .validationError
    else suggestCore now db sku expected_start expected_end window_days
where
  /-- The body of `suggest_time_slots_text` after `expected_end` has been
  resolved (either the 3-hour default or the validated explicit end). -/
  suggestCore (now : Int) (db : DB) (sku : String)
      (expected_start expected_end : Int) (window_days : Int) :
      Except SvcError String :=
    let days := suggest_clamp_days window_days
    let duration := expected_end - expected_start
    let window_start := suggest_window_start now expected_start days
    let window_end := suggest_window_end expected_end days
    if window_end ≤ window_start then
      .ok (format_slots_text sku window_start window_end [])
    else
      .ok (format_slots_text sku window_start window_end
        (suggest_slots db sku window_start window_end duration))

/-- The `order_id` column is unique (the `orders` table's unique constraint). -/
def UniqueIds (db : DB) : Prop :=
  (db.map fun r => r.order_id).Nodup

/-- The overlap-exclusion invariant: distinct rows of the same SKU whose
statuses are occupying never have intersecting buffered ranges. -/
def OverlapFree (db : DB) : Prop :=
  ∀ a ∈ db, ∀ b ∈ db, a.order_id ≠ b.order_id → rowsConflict a b = false

/-- The store invariant maintained by the `orders` table's constraints. -/
def DbInv (db : DB) : Prop :=
  UniqueIds db ∧ OverlapFree db

instance (db : DB) : Decidable (UniqueIds db) := by
  unfold UniqueIds; infer_instance

instance (db : DB) : Decidable (OverlapFree db) := by
  unfold OverlapFree; infer_instance

instance (db : DB) : Decidable (DbInv db) := by
  unfold DbInv; infer_instance

/-- A write operation of the order service: a create or a generic edit. -/
inductive SvcOp where
  | create (order_id user_name user_wechat sku : String)
      (start_at end_at : PyDateTime) (status : String)
      (buffer_hours : Option Int) (locker_code : Option String)
  | edit (order_id : String) (patch : Patch)

/-- Run one service write operation on the store. -/
def applySvcOp (now : Int) (db : DB) : SvcOp → Except SvcError (DB × Order)
  | .create oid un uw sku s e st bh lc =>
    add_order_to_db now db oid un uw sku s e st bh lc
  | .edit oid patch => edit_order_from_db db oid patch

/-- Run a sequence of service write operations; a failing operation raises to
its caller and leaves the store unchanged (the transaction rolls back). -/
def runOps (now : Int) (db : DB) : List SvcOp → DB
  | [] => db
  | op :: rest =>
    match applySvcOp now db op with
    | .ok (db', _) => runOps now db' rest
    | .error _ => runOps now db rest

/-- A range list sorted ascending by `start_at` (the documented input
contract of `_merge_time_ranges`). -/
def SortedByStart (l : List TimeRange) : Prop :=
  l.Pairwise fun a b => a.start_at ≤ b.start_at

/-- Consecutive ranges are strictly separated: each range's start is strictly
after the previous range's end. -/
def SeparatedB : List TimeRange → Bool
  | a :: b :: rest => decide (a.end_at < b.start_at) && SeparatedB (b :: rest)
  | _ => true

/-- An instant lies inside some half-open range of the list. -/
def covered (l : List TimeRange) (t : Int) : Prop :=
  ∃ r ∈ l, r.start_at ≤ t ∧ t < r.end_at

/-- The effective `expected_end` of `suggest_time_slots_text`: the validated
explicit end, or the 3-hour default. -/
def suggest_expected_end (expected_start : Int) : Option PyDateTime → Int
  | none => expected_start + 60 * 3
  | some d => iso_to_dt_utc d

/-- An explicit `expected_end_at`, when supplied, passes
`_validate_time_range` against `expected_start_at`. -/
def valid_end_input (expected_start_at : PyDateTime) : Option PyDateTime → Prop
  | none => True
  | some d => iso_to_dt_utc expected_start_at < iso_to_dt_utc d

/-- Two half-open ranges intersect. -/
def rangesOverlap (a b : TimeRange) : Prop :=
  a.start_at < b.end_at ∧ b.start_at < a.end_at

/-- A store used by several witnesses: one reserved order for SKU `A`
renting minutes 100–200 with a 1-hour buffer. -/
def wRow1 : OrderModel :=
  { order_id := "O1", user_name := "a", user_wechat := "w", sku := "A"
    start_at := 100, end_at := 200, buffer_hours := 1, status := "reserved"
    locker_code := none, created_at := 0, updated_at := 0 }

/-- A second stored order for SKU `A`, minutes 1000–1100, buffer 1 hour. -/
def wRow2 : OrderModel :=
  { order_id := "O2", user_name := "b", user_wechat := "w", sku := "A"
    start_at := 1000, end_at := 1100, buffer_hours := 1, status := "paid"
    locker_code := none, created_at := 0, updated_at := 0 }

/-- A canceled (terminal) order used by witnesses. -/
def wRow3 : OrderModel :=
  { order_id := "O3", user_name := "c", user_wechat := "w", sku := "B"
    start_at := 100, end_at := 200, buffer_hours := 1, status := "canceled"
    locker_code := none, created_at := 0, updated_at := 0 }

/-- The concrete stored row created by the C3 witness. -/
def wStored : OrderModel :=
  { newOrderRow "O1" "a" "w" " a " ⟨100, none⟩ ⟨200, none⟩ "reserved" none none with
    created_at := 0, updated_at := 0 }

/-- A sorted range list with one overlapping pair, used by the C6 witness. -/
def wRanges : List TimeRange := [⟨0, 5⟩, ⟨3, 8⟩, ⟨10, 12⟩]

/-- A sorted, strictly separated range list, used by the C7 witness. -/
def wSep : List TimeRange := [⟨0, 5⟩, ⟨6, 8⟩]

instance (l : List TimeRange) : Decidable (SortedByStart l) := by
  unfold SortedByStart; infer_instance

/-- Two creates on the same SKU with overlapping buffered intervals, used by
the C1 witness: the second one fails and the store keeps only the first. -/
def wOps : List SvcOp :=
  [.create "O1" "a" "w" "A" ⟨100, none⟩ ⟨200, none⟩ "reserved" (some 0) none,
    .create "O2" "b" "w" "A" ⟨150, none⟩ ⟨250, none⟩ "reserved" (some 0) none]

section Theorems

/-- If the first list finds nothing, searching the concatenation searches the
second list. -/
theorem find?_append_of_none {p : OrderModel → Bool} {l1 l2 : DB}
    (h : l1.find? p = none) : (l1 ++ l2).find? p = l2.find? p := by
  induction l1 with
  | nil => rfl
  | cons a l ih =>
    cases hpa : p a with
    | true => simp [List.find?, hpa] at h
    | false =>
      rw [List.find?, hpa] at h
      rw [List.cons_append, List.find?, hpa]
      exact ih h

/-- Anatomy of a successful `edit_order_from_db` call: the existing row was
found, the returned order is the patched row, and the store update
succeeded. -/
theorem edit_ok_shape {db : DB} {oid : String} {patch : Patch} {db' : DB} {o : Order}
    (h : edit_order_from_db db oid patch = .ok (db', o)) :
    ∃ existing, db.find? (fun r => r.order_id == oid) = some existing ∧
      o = model_to_order (applyPatchRow existing patch) ∧
      dbUpdate db oid (applyPatchRow existing patch) = .ok db' := by
  unfold edit_order_from_db at h
  split at h
  · simp at h
  · split at h
    · simp at h
    · rename_i existing hfind
      split at h
      · simp at h
      · split at h
        · simp at h
        · split at h
          · simp at h
          · split at h
            · simp at h
            · simp at h
            · simp at h
            · rename_i db2 hupd
              simp only [Except.ok.injEq, Prod.mk.injEq] at h
              exact ⟨existing, hfind, h.2.symm, by rw [hupd, h.1]⟩

/-- An edit of a found terminal order fails with `TerminalOrderError`
whenever the incoming patch is non-empty. -/
theorem edit_terminal (db : DB) (oid : String) (r : OrderModel) (patch : Patch)
    (hfind : db.find? (fun x => x.order_id == oid) = some r)
    (hterm : r.status ∈ TERMINAL_STATUSES)
    (hp : patch.isEmptyAll = false) :
    edit_order_from_db db oid patch = .error .terminalOrderError := by
  simp only [edit_order_from_db, hp, hfind, hterm, Bool.false_eq_true, if_false, if_true]

/-- C8: for every pair `(start, end)` whose UTC normalizations satisfy
`start >= end`, a creation attempt raises `ValidationError`, and an edit of an
existing non-terminal order whose patch touches `start_at` or `end_at` with an
effective pair violating `start < end` raises `ValidationError`; in either
case the failing call returns no store, so nothing is written. -/
theorem range_validation :
    (∀ (now : Int) (db : DB) (oid un uw sku : String) (s e : PyDateTime)
        (st : String) (bh : Option Int) (lc : Option String),
      iso_to_dt_utc s ≥ iso_to_dt_utc e →
      add_order_to_db now db oid un uw sku s e st bh lc = .error .validationError) ∧
    ∀ (db : DB) (oid : String) (r : OrderModel) (patch : Patch),
      db.find? (fun x => x.order_id == oid) = some r →
      r.status ∉ TERMINAL_STATUSES →
      (patch.start_at.isSome || patch.end_at.isSome) = true →
      patchedStart r patch ≥ patchedEnd r patch →
      edit_order_from_db db oid patch = .error .validationError := by
  constructor
  · intro now db oid un uw sku s e st bh lc h
    unfold add_order_to_db
    rw [if_pos h]
  · intro db oid r patch hfind hterm htouch hrange
    by_cases hall : patch.isEmptyAll = true
    · simp only [edit_order_from_db, hall, if_true]
    · simp only [edit_order_from_db, hall, hfind, hterm, htouch, hrange,
        Bool.false_eq_true, if_false, if_true, decide_eq_true_eq, Bool.true_and,
        ge_iff_le, decide_True]

/-- C8 witness: a concrete invalid create and a concrete invalid edit both
fail with `ValidationError`. -/
theorem range_validation_witness :
    add_order_to_db 0 [] "O9" "u" "w" "A" ⟨200, none⟩ ⟨100, none⟩ "reserved"
        none none = .error .validationError ∧
    edit_order_from_db [wRow1] "O1" { start_at := some ⟨300, none⟩ } =
      .error .validationError :=
  ⟨range_validation.1 0 [] "O9" "u" "w" "A" ⟨200, none⟩ ⟨100, none⟩ "reserved"
      none none (by decide),
    range_validation.2 [wRow1] "O1" wRow1 { start_at := some ⟨300, none⟩ }
      (by decide) (by decide) (by decide) (by decide)⟩

/-- C10: a patch carrying only the server-owned keys `created_at` and/or
`updated_at` is stripped to nothing and rejected with `ValidationError` on an
existing non-terminal order, and every successful edit returns an order whose
`created_at` and `updated_at` equal the stored row's values, never a
caller-supplied one. -/
theorem server_owned_fields_stripped :
    (∀ (db : DB) (oid : String) (r : OrderModel) (patch : Patch),
      db.find? (fun x => x.order_id == oid) = some r →
      r.status ∉ TERMINAL_STATUSES →
      (patch.created_at.isSome || patch.updated_at.isSome) = true →
      patch.isEmptyAfterStrip = true →
      edit_order_from_db db oid patch = .error .validationError) ∧
    ∀ (db : DB) (oid : String) (patch : Patch) (db' : DB) (o : Order),
      edit_order_from_db db oid patch = .ok (db', o) →
      ∃ r, db.find? (fun x => x.order_id == oid) = some r ∧
        o.created_at = r.created_at ∧ o.updated_at = r.updated_at := by
  constructor
  · intro db oid r patch hfind hterm hkeys hstrip
    have hfields := hstrip
    unfold Patch.isEmptyAfterStrip at hfields
    simp only [Bool.and_eq_true] at hfields
    have hstart : patch.start_at = none := Option.isNone_iff_eq_none.mp
      hfields.1.1.1.1.1.1.1
    have hend : patch.end_at = none := Option.isNone_iff_eq_none.mp
      hfields.1.1.1.1.1.1.2
    have hall : patch.isEmptyAll = false := by
      unfold Patch.isEmptyAll
      have hkeys' : patch.created_at.isSome = true ∨ patch.updated_at.isSome = true := by
        simpa using hkeys
      rcases hkeys' with h | h <;>
        rcases Option.isSome_iff_exists.mp h with ⟨v, hv⟩ <;> simp [hv]
    simp only [edit_order_from_db, hall, hfind, hterm, hstrip, hstart, hend,
      Bool.false_eq_true, if_false, if_true, Option.isSome_none, Bool.or_self,
      Bool.false_and]
  · intro db oid patch db' o h
    obtain ⟨r, hfind, ho, -⟩ := edit_ok_shape h
    exact ⟨r, hfind, by simp [ho, model_to_order, applyPatchRow],
      by simp [ho, model_to_order, applyPatchRow]⟩

/-- C10 witness: a patch holding only `created_at`/`updated_at` is rejected on
a live order, and a successful status edit preserves both server timestamps. -/
theorem server_owned_fields_stripped_witness :
    edit_order_from_db [wRow1] "O1" { created_at := some 5, updated_at := some 6 } =
      .error .validationError ∧
    ∃ r, [wRow1].find? (fun x => x.order_id == "O1") = some r ∧
      (model_to_order (applyPatchRow wRow1 { status := some "paid" })).created_at =
        r.created_at ∧
      (model_to_order (applyPatchRow wRow1 { status := some "paid" })).updated_at =
        r.updated_at :=
  ⟨server_owned_fields_stripped.1 [wRow1] "O1" wRow1
      { created_at := some 5, updated_at := some 6 }
      (by decide) (by decide) (by decide) (by decide),
    server_owned_fields_stripped.2 [wRow1] "O1" { status := some "paid" }
      (replaceRow [wRow1] "O1" (applyPatchRow wRow1 { status := some "paid" }))
      (model_to_order (applyPatchRow wRow1 { status := some "paid" }))
      rfl⟩

/-- C2: once an order is terminal (`successful` or `canceled`), every edit
with a non-empty patch — including a no-op patch re-stating current values —
fails with `TerminalOrderError`; a hard delete of the order still succeeds
and afterwards `get_order_detail` fails with `NotFoundError`.  (An *empty*
patch is rejected as `ValidationError` even earlier, before the terminal
check.) -/
theorem terminal_immutability (db : DB) (oid : String) (r : OrderModel) (patch : Patch)
    (hfind : db.find? (fun x => x.order_id == oid) = some r)
    (hterm : r.status ∈ TERMINAL_STATUSES)
    (hp : patch.isEmptyAll = false) :
    edit_order_from_db db oid patch = .error .terminalOrderError ∧
    cancel_order db oid true = .ok (deleteRow db oid, model_to_order r) ∧
    get_order_detail (deleteRow db oid) oid = .error .notFoundError := by
  refine ⟨edit_terminal db oid r patch hfind hterm hp, ?_, ?_⟩
  · simp only [cancel_order, if_true, hfind]
  · unfold get_order_detail
    have hnone : (deleteRow db oid).find? (fun x => x.order_id == oid) = none := by
      rw [List.find?_eq_none]
      intro x hx
      have hpred := (List.mem_filter.mp hx).2
      simp only [Bool.not_eq_true'] at hpred
      simp [hpred]
    rw [hnone]

/-- C2 witness: the canceled order `wRow3` rejects a status edit, hard
deletion succeeds, and the order is gone afterwards. -/
theorem terminal_immutability_witness :
    edit_order_from_db [wRow3] "O3" { status := some "paid" } =
      .error .terminalOrderError ∧
    cancel_order [wRow3] "O3" true = .ok (deleteRow [wRow3] "O3", model_to_order wRow3) ∧
    get_order_detail (deleteRow [wRow3] "O3") "O3" = .error .notFoundError :=
  terminal_immutability [wRow3] "O3" wRow3 { status := some "paid" }
    (by decide) (by decide) (by decide)

/-- Anatomy of a successful `add_order_to_db` call: the id was fresh, no
occupying row conflicted, and the returned store/order are the appended
server-stamped row. -/
theorem add_ok_shape {now : Int} {db : DB} {oid un uw sku : String}
    {s e : PyDateTime} {st : String} {bh : Option Int} {lc : Option String}
    {db' : DB} {o : Order}
    (h : add_order_to_db now db oid un uw sku s e st bh lc = .ok (db', o)) :
    (db.any fun r => r.order_id == oid) = false ∧
    (db.any fun r => rowsConflict r (newOrderRow oid un uw sku s e st bh lc)) = false ∧
    db' = db ++ [{ newOrderRow oid un uw sku s e st bh lc with
      created_at := now, updated_at := now }] ∧
    o = model_to_order { newOrderRow oid un uw sku s e st bh lc with
      created_at := now, updated_at := now } := by
  unfold add_order_to_db at h
  split at h
  · simp at h
  · cases hd : dbInsert now db (newOrderRow oid un uw sku s e st bh lc) with
    | error pe => rw [hd] at h; cases pe <;> simp at h
    | ok pair =>
      obtain ⟨dbb, stored⟩ := pair
      rw [hd] at h
      simp only [Except.ok.injEq, Prod.mk.injEq] at h
      unfold dbInsert at hd
      split at hd
      · simp at hd
      · split at hd
        · simp at hd
        · split at hd
          · simp at hd
          · rename_i hfresh hconf hchk
            simp only [Except.ok.injEq, Prod.mk.injEq] at hd
            refine ⟨?_, ?_, ?_, ?_⟩
            · simpa [newOrderRow] using hfresh
            · simpa using hconf
            · rw [← h.1, ← hd.1]
            · rw [← h.2, ← hd.2]

/-- C3: after a successful `add_order_to_db` with the tool-supplied default
status `reserved`, `get_order_detail` on the same id returns exactly the
created order: same `order_id`, the SKU stripped and uppercased, the
timestamps normalized to UTC, and status `reserved`. -/
theorem create_get_roundtrip (now : Int) (db : DB) (oid un uw sku : String)
    (s e : PyDateTime) (bh : Option Int) (lc : Option String) (db' : DB) (o : Order)
    (h : add_order_to_db now db oid un uw sku s e "reserved" bh lc = .ok (db', o)) :
    get_order_detail db' oid = .ok o ∧ o.order_id = oid ∧ o.sku = strip_upper sku ∧
    o.start_at_iso = iso_to_dt_utc s ∧ o.end_at_iso = iso_to_dt_utc e ∧
    o.status = "reserved" := by
  obtain ⟨hfresh, -, hdb, ho⟩ := add_ok_shape h
  have hnone : db.find? (fun x => x.order_id == oid) = none := by
    rw [List.find?_eq_none]
    intro x hx hpx
    have hx' : (db.any fun y => y.order_id == oid) = true :=
      List.any_eq_true.mpr ⟨x, hx, hpx⟩
    rw [hfresh] at hx'
    cases hx'
  refine ⟨?_, ?_, ?_, ?_, ?_, ?_⟩
  · unfold get_order_detail
    rw [hdb, find?_append_of_none hnone]
    rw [show ([{ newOrderRow oid un uw sku s e "reserved" bh lc with
        created_at := now, updated_at := now }] : DB).find?
        (fun x => x.order_id == oid) =
        some { newOrderRow oid un uw sku s e "reserved" bh lc with
          created_at := now, updated_at := now } from by
      simp [List.find?, newOrderRow]]
    rw [ho]
  all_goals simp [ho, model_to_order, newOrderRow]

/-- C3 witness: a concrete create on the empty store round-trips through
`get_order_detail` with normalized SKU, UTC timestamps, and default status. -/
theorem create_get_roundtrip_witness :
    get_order_detail [wStored] "O1" = .ok (model_to_order wStored) ∧
    (model_to_order wStored).order_id = "O1" ∧
    (model_to_order wStored).sku = strip_upper " a " ∧
    (model_to_order wStored).start_at_iso = iso_to_dt_utc ⟨100, none⟩ ∧
    (model_to_order wStored).end_at_iso = iso_to_dt_utc ⟨200, none⟩ ∧
    (model_to_order wStored).status = "reserved" :=
  create_get_roundtrip 0 [] "O1" "a" "w" " a " ⟨100, none⟩ ⟨200, none⟩ none none
    [wStored] (model_to_order wStored) rfl

/-- Every occupying status is non-terminal (the two lists are disjoint). -/
theorem occupying_not_terminal {s : String} (h : s ∈ OCCUPYING_STATUSES) :
    s ∉ TERMINAL_STATUSES := by
  simp only [OCCUPYING_STATUSES, List.mem_cons, List.not_mem_nil, or_false] at h
  rcases h with rfl | rfl | rfl | rfl <;> simp [TERMINAL_STATUSES]

/-- C9: `deliver_order` with an empty locker code always fails with
`ValidationError`, before any storage access (for every store and id,
including missing or terminal orders); with a non-empty locker code on an
existing occupying (= valid non-terminal) order in an overlap-free store it
succeeds, returning the order with status `shipped` and the given locker
code. -/
theorem deliver_precondition :
    (∀ (db : DB) (oid : String), deliver_order db oid "" = .error .validationError) ∧
    ∀ (db : DB) (oid : String) (r : OrderModel) (lc : String),
      db.find? (fun x => x.order_id == oid) = some r →
      r.status ∈ OCCUPYING_STATUSES → OverlapFree db → lc ≠ "" →
      ∃ db' o, deliver_order db oid lc = .ok (db', o) ∧
        o.status = "shipped" ∧ o.locker_code = some lc := by
  constructor
  · intro db oid; rfl
  · intro db oid r lc hfind hocc hfree hlc
    have hlcb : (lc == "") = false := beq_eq_false_iff_ne.mpr hlc
    have hrid : r.order_id = oid := by
      have := List.find?_some hfind
      simpa using this
    have hoccB : occupiesB r = true := by simp [occupiesB, hocc]
    have huoccB : occupiesB (applyPatchRow r
        { status := some "shipped", locker_code := some (some lc) }) = true := by
      simp [occupiesB, applyPatchRow, OCCUPYING_STATUSES]
    have hconf : ∀ x, rowsConflict x (applyPatchRow r
        { status := some "shipped", locker_code := some (some lc) }) =
        rowsConflict x r := by
      intro x
      unfold rowsConflict
      rw [hoccB, huoccB]
      simp [applyPatchRow, patchedStart, patchedEnd, bufferedStart, bufferedEnd]
    have hexc : (db.any fun x => !(x.order_id == oid) && rowsConflict x
        (applyPatchRow r { status := some "shipped", locker_code := some (some lc) })) =
        false := by
      rw [← Bool.not_eq_true, List.any_eq_true]
      rintro ⟨x, hx, hpx⟩
      cases hxid : x.order_id == oid with
      | true => rw [hxid] at hpx; simp at hpx
      | false =>
        have hne : x.order_id ≠ r.order_id := by
          rw [hrid]; exact beq_eq_false_iff_ne.mp hxid
        have hnc := hfree x hx r (List.mem_of_find?_eq_some hfind) hne
        rw [hconf x, hnc, hxid] at hpx
        simp at hpx
    have hchk : shippedWithoutLocker (applyPatchRow r
        { status := some "shipped", locker_code := some (some lc) }) = false := by
      simp [shippedWithoutLocker, applyPatchRow, hlcb]
    refine ⟨replaceRow db oid (applyPatchRow r
        { status := some "shipped", locker_code := some (some lc) }),
      model_to_order (applyPatchRow r
        { status := some "shipped", locker_code := some (some lc) }), ?_, ?_, ?_⟩
    · simp only [deliver_order, hlcb, Bool.false_eq_true, if_false]
      simp only [edit_order_from_db, hfind]
      rw [if_neg (by simp [Patch.isEmptyAll]), if_neg (occupying_not_terminal hocc),
        if_neg (by simp), if_neg (by simp [Patch.isEmptyAfterStrip])]
      simp only [dbUpdate, hexc, hchk, Bool.false_eq_true, if_false]
    · simp [model_to_order, applyPatchRow]
    · simp [model_to_order, applyPatchRow]

/-- C9 witness: empty locker code rejected on a concrete store; delivering
`wRow2` with locker `X` succeeds, shipping it with that code. -/
theorem deliver_precondition_witness :
    deliver_order [wRow1, wRow2] "O2" "" = .error .validationError ∧
    ∃ db' o, deliver_order [wRow1, wRow2] "O2" "X" = .ok (db', o) ∧
      o.status = "shipped" ∧ o.locker_code = some "X" :=
  ⟨deliver_precondition.1 [wRow1, wRow2] "O2",
    deliver_precondition.2 [wRow1, wRow2] "O2" wRow2 "X"
      (by decide) (by decide) (by decide) (by decide)⟩

/-- Every range produced by the merge loop starts at the start of some input
range (coalescing keeps the accumulated range's start). -/
theorem mergeAux_starts (l : List TimeRange) : ∀ (last : TimeRange),
    ∀ x ∈ mergeAux last l, ∃ r ∈ last :: l, x.start_at = r.start_at := by
  induction l with
  | nil =>
    intro last x hx
    simp only [mergeAux, List.mem_singleton] at hx
    exact ⟨last, by simp, by rw [hx]⟩
  | cons c rest ih =>
    intro last x hx
    unfold mergeAux at hx
    split at hx
    · obtain ⟨r, hr, hxr⟩ := ih _ x hx
      rcases List.mem_cons.mp hr with rfl | hr
      · exact ⟨last, by simp, hxr⟩
      · exact ⟨r, by simp [hr], hxr⟩
    · rcases List.mem_cons.mp hx with rfl | hx
      · exact ⟨x, by simp, rfl⟩
      · obtain ⟨r, hr, hxr⟩ := ih _ x hx
        exact ⟨r, List.mem_cons_of_mem _ hr, hxr⟩

/-- On sorted input every merged range starts at or after the accumulated
range's start. -/
theorem mergeAux_start_ge {last : TimeRange} {l : List TimeRange}
    (h : SortedByStart (last :: l)) :
    ∀ x ∈ mergeAux last l, last.start_at ≤ x.start_at := by
  intro x hx
  obtain ⟨r, hr, hxr⟩ := mergeAux_starts l last x hx
  rw [hxr]
  rcases List.mem_cons.mp hr with rfl | hr
  · exact le_refl _
  · exact (List.pairwise_cons.mp h).1 r hr

/-- The merge loop's output is sorted by start on sorted input. -/
theorem mergeAux_sorted {l : List TimeRange} : ∀ {last : TimeRange},
    SortedByStart (last :: l) → SortedByStart (mergeAux last l) := by
  induction l with
  | nil => intro last _; simp [mergeAux, SortedByStart]
  | cons c rest ih =>
    intro last h
    have hcons := List.pairwise_cons.mp h
    unfold mergeAux
    split
    · refine ih (List.pairwise_cons.mpr ⟨?_, (List.pairwise_cons.mp hcons.2).2⟩)
      intro b hb
      exact hcons.1 b (List.mem_cons_of_mem _ hb)
    · refine List.pairwise_cons.mpr ⟨?_, ih hcons.2⟩
      intro x hx
      have hc := mergeAux_start_ge hcons.2 x hx
      exact le_trans (hcons.1 c (by simp)) hc

/-- The merge loop's output is non-empty and its head keeps the accumulated
start. -/
theorem mergeAux_head (l : List TimeRange) : ∀ (last : TimeRange),
    ∃ hd tl, mergeAux last l = hd :: tl ∧ hd.start_at = last.start_at := by
  induction l with
  | nil => intro last; exact ⟨last, [], rfl, rfl⟩
  | cons c rest ih =>
    intro last
    unfold mergeAux
    split
    · obtain ⟨hd, tl, heq, hst⟩ := ih ⟨last.start_at, max last.end_at c.end_at⟩
      exact ⟨hd, tl, heq, hst⟩
    · exact ⟨last, mergeAux c rest, rfl, rfl⟩

/-- On sorted input the merge loop's output ranges are strictly separated:
consecutive output ranges satisfy `end < start`, so none overlap and none
are adjacent (this is what makes the output minimal). -/
theorem mergeAux_sep {l : List TimeRange} : ∀ {last : TimeRange},
    SortedByStart (last :: l) → SeparatedB (mergeAux last l) = true := by
  induction l with
  | nil => intro last _; rfl
  | cons c rest ih =>
    intro last h
    have hcons := List.pairwise_cons.mp h
    unfold mergeAux
    split
    · refine ih (List.pairwise_cons.mpr ⟨?_, (List.pairwise_cons.mp hcons.2).2⟩)
      intro b hb
      exact hcons.1 b (List.mem_cons_of_mem _ hb)
    · rename_i hkeep
      obtain ⟨hd, tl, heq, hst⟩ := mergeAux_head rest c
      rw [heq]
      have hsep : SeparatedB (hd :: tl) = true := heq ▸ ih hcons.2
      have hlt : last.end_at < hd.start_at := by
        rw [hst]; exact lt_of_not_le hkeep
      simp [SeparatedB, hlt, hsep]

/-- On sorted input every input range is contained in some merged range. -/
theorem mergeAux_covers {l : List TimeRange} : ∀ {last : TimeRange},
    SortedByStart (last :: l) →
    ∀ r ∈ last :: l, ∃ b ∈ mergeAux last l,
      b.start_at ≤ r.start_at ∧ r.end_at ≤ b.end_at := by
  induction l with
  | nil =>
    intro last _ r hr
    rcases List.mem_cons.mp hr with rfl | hr
    · exact ⟨r, by simp [mergeAux], le_refl _, le_refl _⟩
    · cases hr
  | cons c rest ih =>
    intro last h r hr
    have hcons := List.pairwise_cons.mp h
    unfold mergeAux
    split
    · rename_i hco
      have hsorted' : SortedByStart (⟨last.start_at, max last.end_at c.end_at⟩ :: rest) := by
        refine List.pairwise_cons.mpr ⟨?_, (List.pairwise_cons.mp hcons.2).2⟩
        intro b hb
        exact hcons.1 b (List.mem_cons_of_mem _ hb)
      obtain ⟨b, hb, hbs, hbe⟩ := ih hsorted'
        ⟨last.start_at, max last.end_at c.end_at⟩ (by simp)
      rcases List.mem_cons.mp hr with rfl | hr
      · exact ⟨b, hb, hbs, le_trans (le_max_left _ _) hbe⟩
      · rcases List.mem_cons.mp hr with rfl | hr
        · exact ⟨b, hb, le_trans hbs (hcons.1 r (by simp)),
            le_trans (le_max_right _ _) hbe⟩
        · exact ih hsorted' r (List.mem_cons_of_mem _ hr)
    · rcases List.mem_cons.mp hr with rfl | hr
      · exact ⟨r, by simp, le_refl _, le_refl _⟩
      · obtain ⟨b, hb, hbs, hbe⟩ := ih hcons.2 r hr
        exact ⟨b, List.mem_cons_of_mem _ hb, hbs, hbe⟩

/-- On sorted input the merge loop preserves the covered set of instants. -/
theorem mergeAux_covered_iff {l : List TimeRange} : ∀ {last : TimeRange},
    SortedByStart (last :: l) →
    ∀ t, covered (last :: l) t ↔ covered (mergeAux last l) t := by
  induction l with
  | nil => intro last _ t; simp [mergeAux]
  | cons c rest ih =>
    intro last h t
    have hcons := List.pairwise_cons.mp h
    have hlc : last.start_at ≤ c.start_at := hcons.1 c (by simp)
    unfold mergeAux
    split
    · rename_i hco
      have hsorted' : SortedByStart (⟨last.start_at, max last.end_at c.end_at⟩ :: rest) := by
        refine List.pairwise_cons.mpr ⟨?_, (List.pairwise_cons.mp hcons.2).2⟩
        intro b hb
        exact hcons.1 b (List.mem_cons_of_mem _ hb)
      rw [← ih hsorted' t]
      simp only [covered, List.mem_cons]
      constructor
      · rintro ⟨r, hr, hrt⟩
        rcases hr with rfl | rfl | hr
        · exact ⟨⟨r.start_at, max r.end_at c.end_at⟩, Or.inl rfl,
            hrt.1, lt_of_lt_of_le hrt.2 (le_max_left _ _)⟩
        · exact ⟨⟨last.start_at, max last.end_at r.end_at⟩, Or.inl rfl,
            le_trans hlc hrt.1, lt_of_lt_of_le hrt.2 (le_max_right _ _)⟩
        · exact ⟨r, Or.inr hr, hrt⟩
      · rintro ⟨r, hr, hrt⟩
        rcases hr with rfl | hr
        · rcases lt_or_le t last.end_at with hlt | hge
          · exact ⟨last, Or.inl rfl, hrt.1, hlt⟩
          · refine ⟨c, Or.inr (Or.inl rfl), le_trans hco hge, ?_⟩
            rcases max_cases last.end_at c.end_at with ⟨hm, _⟩ | ⟨hm, _⟩
            · rw [hm] at hrt
              exact absurd hrt.2 (not_lt.mpr hge)
            · rw [hm] at hrt
              exact hrt.2
        · exact ⟨r, Or.inr (Or.inr hr), hrt⟩
    · have hiff := ih hcons.2 t
      simp only [covered, List.mem_cons] at hiff ⊢
      constructor
      · rintro ⟨r, hr, hrt⟩
        rcases hr with rfl | hr
        · exact ⟨r, Or.inl rfl, hrt⟩
        · obtain ⟨b, hb, hbt⟩ := hiff.mp ⟨r, hr, hrt⟩
          exact ⟨b, Or.inr hb, hbt⟩
      · rintro ⟨r, hr, hrt⟩
        rcases hr with rfl | hr
        · exact ⟨r, Or.inl rfl, hrt⟩
        · obtain ⟨b, hb, hbt⟩ := hiff.mpr ⟨r, hr, hrt⟩
          exact ⟨b, Or.inr hb, hbt⟩

/-- The merge loop emits at most one range per input range. -/
theorem mergeAux_length (l : List TimeRange) : ∀ (last : TimeRange),
    (mergeAux last l).length ≤ l.length + 1 := by
  induction l with
  | nil => intro last; simp [mergeAux]
  | cons c rest ih =>
    intro last
    unfold mergeAux
    split
    · exact le_trans (ih _) (by simp)
    · simpa using Nat.succ_le_succ (ih c)

/-- C6: on input sorted ascending by start, `_merge_time_ranges` returns a
minimal ordered sequence of non-overlapping ranges: the output is sorted,
consecutive output ranges are strictly separated (`end < start`, hence
non-overlapping and not coalescible further), it is no longer than the
input, it covers exactly the same instants, and it follows the documented
coalescing rule: a range whose start is ≤ the accumulated range's end is
coalesced into `[last.start, max(last.end, current.end)]`, any other range
starts a new output range. -/
theorem merge_ranges_correct (l : List TimeRange) (h : SortedByStart l) :
    SortedByStart (merge_time_ranges l) ∧
    SeparatedB (merge_time_ranges l) = true ∧
    (merge_time_ranges l).length ≤ l.length ∧
    (∀ t, covered l t ↔ covered (merge_time_ranges l) t) ∧
    (∀ (a b : TimeRange) (rest : List TimeRange), b.start_at ≤ a.end_at →
      merge_time_ranges (a :: b :: rest) =
        merge_time_ranges (⟨a.start_at, max a.end_at b.end_at⟩ :: rest)) ∧
    ∀ (a b : TimeRange) (rest : List TimeRange), a.end_at < b.start_at →
      merge_time_ranges (a :: b :: rest) = a :: merge_time_ranges (b :: rest) := by
  refine ⟨?_, ?_, ?_, ?_, ?_, ?_⟩
  · cases l with
    | nil => exact List.Pairwise.nil
    | cons r rest => exact mergeAux_sorted h
  · cases l with
    | nil => rfl
    | cons r rest => exact mergeAux_sep h
  · cases l with
    | nil => simp [merge_time_ranges]
    | cons r rest => simpa [merge_time_ranges] using mergeAux_length rest r
  · intro t
    cases l with
    | nil => simp [merge_time_ranges]
    | cons r rest => exact mergeAux_covered_iff h t
  · intro a b rest hba
    show mergeAux a (b :: rest) = mergeAux ⟨a.start_at, max a.end_at b.end_at⟩ rest
    rw [mergeAux, if_pos hba]
  · intro a b rest hab
    show mergeAux a (b :: rest) = a :: mergeAux b rest
    rw [mergeAux, if_neg (not_le.mpr hab)]

/-- C6 witness: the concrete sorted list `wRanges` merges into a sorted,
separated, shorter, coverage-preserving list. -/
theorem merge_ranges_correct_witness :
    SortedByStart wRanges ∧
    (SortedByStart (merge_time_ranges wRanges) ∧
      SeparatedB (merge_time_ranges wRanges) = true ∧
      (merge_time_ranges wRanges).length ≤ wRanges.length ∧
      (∀ t, covered wRanges t ↔ covered (merge_time_ranges wRanges) t) ∧
      (∀ (a b : TimeRange) (rest : List TimeRange), b.start_at ≤ a.end_at →
        merge_time_ranges (a :: b :: rest) =
          merge_time_ranges (⟨a.start_at, max a.end_at b.end_at⟩ :: rest)) ∧
      ∀ (a b : TimeRange) (rest : List TimeRange), a.end_at < b.start_at →
        merge_time_ranges (a :: b :: rest) = a :: merge_time_ranges (b :: rest)) :=
  ⟨by decide, merge_ranges_correct wRanges (by decide)⟩

/-- On strictly separated input the merge loop changes nothing. -/
theorem mergeAux_sep_eq {l : List TimeRange} : ∀ {last : TimeRange},
    SeparatedB (last :: l) = true → mergeAux last l = last :: l := by
  induction l with
  | nil => intro last _; rfl
  | cons c rest ih =>
    intro last h
    unfold SeparatedB at h
    rw [Bool.and_eq_true, decide_eq_true_eq] at h
    unfold mergeAux
    rw [if_neg (not_le.mpr h.1), ih h.2]

/-- C7: merging an already-merged input — sorted ascending by start with each
range's start strictly after the previous range's end — returns the input
unchanged. -/
theorem merge_idempotent (l : List TimeRange) (hs : SortedByStart l)
    (hsep : SeparatedB l = true) : merge_time_ranges l = l := by
  cases l with
  | nil => rfl
  | cons r rest => exact mergeAux_sep_eq hsep

/-- C7 witness: the concrete sorted separated list `wSep` is a fixed point of
the merge. -/
theorem merge_idempotent_witness :
    SortedByStart wSep ∧ SeparatedB wSep = true ∧ merge_time_ranges wSep = wSep :=
  ⟨by decide, by decide, merge_idempotent wSep (by decide) (by decide)⟩

/-- C5: `suggest_time_slots_text` clamps `window_days` into `[0, 7]`, defaults
a missing `expected_end_at` to `expected_start + 3` hours (the call behaves
exactly like one with that explicit end), computes
`windowStart = max(now, expectedStart - windowDays)` and
`windowEnd = expectedEnd + windowDays`, and when `windowEnd <= windowStart`
returns the no-slots text for every store — the result does not depend on the
store, so no query is issued. -/
theorem suggest_window_clamp :
    (∀ wd : Int, 0 ≤ suggest_clamp_days wd ∧ suggest_clamp_days wd ≤ 7 ∧
      (0 ≤ wd → wd ≤ 7 → suggest_clamp_days wd = wd)) ∧
    (∀ (now : Int) (db : DB) (sku : String) (es_in : PyDateTime) (wd : Int),
      suggest_time_slots_text now db sku es_in none wd =
        suggest_time_slots_text now db sku es_in
          (some ⟨iso_to_dt_utc es_in + 60 * 3, some 0⟩) wd) ∧
    (∀ now es days : Int,
      suggest_window_start now es days = max now (es - 1440 * days)) ∧
    (∀ ee days : Int, suggest_window_end ee days = ee + 1440 * days) ∧
    ∀ (now : Int) (sku : String) (es_in : PyDateTime) (ee_in : Option PyDateTime)
      (wd : Int), valid_end_input es_in ee_in →
      suggest_window_end (suggest_expected_end (iso_to_dt_utc es_in) ee_in)
          (suggest_clamp_days wd) ≤
        suggest_window_start now (iso_to_dt_utc es_in) (suggest_clamp_days wd) →
      ∀ db : DB, suggest_time_slots_text now db sku es_in ee_in wd =
        .ok (format_slots_text (strip_upper sku)
          (suggest_window_start now (iso_to_dt_utc es_in) (suggest_clamp_days wd))
          (suggest_window_end (suggest_expected_end (iso_to_dt_utc es_in) ee_in)
            (suggest_clamp_days wd)) []) := by
  refine ⟨?_, ?_, ?_, ?_, ?_⟩
  · intro wd
    unfold suggest_clamp_days
    refine ⟨le_max_left _ _, max_le (by norm_num) (min_le_left _ _), ?_⟩
    intro h0 h7
    rw [min_eq_right h7, max_eq_right h0]
  · intro now db sku es_in wd
    unfold suggest_time_slots_text
    simp only [iso_to_dt_utc, to_utc]
    rw [if_neg (by omega), sub_zero]
  · intro now es days
    unfold suggest_window_start
    split
    · rename_i hlt
      exact (max_eq_left (le_of_lt hlt)).symm
    · rename_i hge
      exact (max_eq_right (not_lt.mp hge)).symm
  · intro ee days; rfl
  · intro now sku es_in ee_in wd hv hle db
    cases ee_in with
    | none =>
      unfold suggest_time_slots_text suggest_time_slots_text.suggestCore
      dsimp only
      rw [if_pos (by simpa [suggest_expected_end] using hle)]
      rfl
    | some d =>
      unfold suggest_time_slots_text suggest_time_slots_text.suggestCore
      dsimp only
      rw [if_neg (not_le.mpr (show iso_to_dt_utc es_in < iso_to_dt_utc d from hv)),
        if_pos (by simpa [suggest_expected_end] using hle)]
      rfl

/-- C5 witness: concrete clamping, default end, window formulas, and a
db-independent early return when the window is empty. -/
theorem suggest_window_clamp_witness :
    (0 ≤ suggest_clamp_days 9 ∧ suggest_clamp_days 9 ≤ 7 ∧
      (0 ≤ (9 : Int) → (9 : Int) ≤ 7 → suggest_clamp_days 9 = 9)) ∧
    suggest_time_slots_text 0 [wRow1] "A" ⟨120, none⟩ none 1 =
      suggest_time_slots_text 0 [wRow1] "A" ⟨120, none⟩
        (some ⟨iso_to_dt_utc ⟨120, none⟩ + 60 * 3, some 0⟩) 1 ∧
    suggest_window_start 10000 120 0 = max 10000 (120 - 1440 * 0) ∧
    suggest_window_end 300 0 = 300 + 1440 * 0 ∧
    suggest_time_slots_text 10000 [wRow1] "A" ⟨120, none⟩ none 0 =
      .ok (format_slots_text (strip_upper "A")
        (suggest_window_start 10000 (iso_to_dt_utc ⟨120, none⟩) (suggest_clamp_days 0))
        (suggest_window_end (suggest_expected_end (iso_to_dt_utc ⟨120, none⟩) none)
          (suggest_clamp_days 0)) []) :=
  ⟨suggest_window_clamp.1 9,
    suggest_window_clamp.2.1 0 [wRow1] "A" ⟨120, none⟩ 1,
    suggest_window_clamp.2.2.1 10000 120 0,
    suggest_window_clamp.2.2.2.1 300 0,
    suggest_window_clamp.2.2.2.2 10000 "A" ⟨120, none⟩ none 0 trivial (by decide)
      [wRow1]⟩

/-- Membership through the stable insertion step. -/
theorem mem_insertByStart {r x : TimeRange} : ∀ {l : List TimeRange},
    x ∈ insertByStart r l ↔ x = r ∨ x ∈ l := by
  intro l
  induction l with
  | nil => simp [insertByStart]
  | cons a as ih =>
    unfold insertByStart
    split
    · rw [List.mem_cons, ih]
      simp only [List.mem_cons]
      tauto
    · simp only [List.mem_cons]

/-- The stable insertion step preserves sortedness by start. -/
theorem insertByStart_sorted {r : TimeRange} : ∀ {l : List TimeRange},
    SortedByStart l → SortedByStart (insertByStart r l) := by
  intro l
  induction l with
  | nil => intro _; simp [insertByStart, SortedByStart]
  | cons a as ih =>
    intro h
    have hcons := List.pairwise_cons.mp h
    unfold insertByStart
    split
    · rename_i hlt
      refine List.pairwise_cons.mpr ⟨?_, ih hcons.2⟩
      intro b hb
      rcases mem_insertByStart.mp hb with rfl | hb
      · exact le_of_lt hlt
      · exact hcons.1 b hb
    · rename_i hge
      refine List.pairwise_cons.mpr ⟨?_, h⟩
      intro b hb
      rcases List.mem_cons.mp hb with rfl | hb
      · exact not_lt.mp hge
      · exact le_trans (not_lt.mp hge) (hcons.1 b hb)

/-- The sort used by `suggest_time_slots_text` sorts by start. -/
theorem sortByStart_sorted (l : List TimeRange) : SortedByStart (sortByStart l) := by
  induction l with
  | nil => exact List.Pairwise.nil
  | cons a as ih => exact insertByStart_sorted ih

/-- The sort is a permutation: membership is preserved. -/
theorem mem_sortByStart {x : TimeRange} : ∀ {l : List TimeRange},
    x ∈ sortByStart l ↔ x ∈ l := by
  intro l
  induction l with
  | nil => simp [sortByStart]
  | cons a as ih =>
    unfold sortByStart
    rw [mem_insertByStart, ih]
    simp only [List.mem_cons]

/-- `merge_time_ranges` output is sorted by start on sorted input. -/
theorem merge_sorted {l : List TimeRange} (h : SortedByStart l) :
    SortedByStart (merge_time_ranges l) := by
  cases l with
  | nil => exact List.Pairwise.nil
  | cons a rest => exact mergeAux_sorted h

/-- Every merged range starts where some input range starts. -/
theorem merge_starts {l : List TimeRange} :
    ∀ b ∈ merge_time_ranges l, ∃ r ∈ l, b.start_at = r.start_at := by
  cases l with
  | nil => intro b hb; cases hb
  | cons a rest => exact mergeAux_starts rest a

/-- Every input range is contained in some merged range (sorted input). -/
theorem merge_covers {l : List TimeRange} (h : SortedByStart l) :
    ∀ r ∈ l, ∃ b ∈ merge_time_ranges l,
      b.start_at ≤ r.start_at ∧ r.end_at ≤ b.end_at := by
  cases l with
  | nil => intro r hr; cases hr
  | cons a rest => exact mergeAux_covers h

/-- Every gap starts at or after the cursor. -/
theorem gaps_start_ge : ∀ (blocks : List TimeRange) (c we : Int),
    ∀ s ∈ gapsAux c blocks we, c ≤ s.start_at := by
  intro blocks
  induction blocks with
  | nil =>
    intro c we s hs
    unfold gapsAux at hs
    split at hs
    · rw [List.mem_singleton] at hs
      rw [hs]
    · cases hs
  | cons b rest ih =>
    intro c we s hs
    unfold gapsAux at hs
    rcases List.mem_append.mp hs with hs | hs
    · split at hs
      · rw [List.mem_singleton] at hs
        rw [hs]
      · cases hs
    · exact le_trans (le_max_left _ _) (ih _ _ s hs)

/-- Every gap ends at or before the window end, provided every block starts
inside the window. -/
theorem gaps_end_le : ∀ (blocks : List TimeRange) (c we : Int),
    (∀ b ∈ blocks, b.start_at < we) →
    ∀ s ∈ gapsAux c blocks we, s.end_at ≤ we := by
  intro blocks
  induction blocks with
  | nil =>
    intro c we _ s hs
    unfold gapsAux at hs
    split at hs
    · rw [List.mem_singleton] at hs
      rw [hs]
    · cases hs
  | cons b rest ih =>
    intro c we hblocks s hs
    unfold gapsAux at hs
    rcases List.mem_append.mp hs with hs | hs
    · split at hs
      · rw [List.mem_singleton] at hs
        rw [hs]
        exact le_of_lt (hblocks b (by simp))
      · cases hs
    · exact ih _ _ (fun x hx => hblocks x (List.mem_cons_of_mem _ hx)) s hs

/-- No gap overlaps any block, for blocks sorted by start. -/
theorem gaps_disjoint : ∀ (blocks : List TimeRange) (c we : Int),
    SortedByStart blocks →
    ∀ s ∈ gapsAux c blocks we, ∀ b ∈ blocks, ¬ rangesOverlap s b := by
  intro blocks
  induction blocks with
  | nil => intro c we _ s _ b hb; cases hb
  | cons b0 rest ih =>
    intro c we hsorted s hs b hb
    have hcons := List.pairwise_cons.mp hsorted
    unfold gapsAux at hs
    rcases List.mem_append.mp hs with hs | hs
    · split at hs
      · rw [List.mem_singleton] at hs
        subst hs
        rcases List.mem_cons.mp hb with rfl | hb
        · rintro ⟨-, h2⟩
          exact absurd h2 (lt_irrefl _)
        · rintro ⟨-, h2⟩
          exact absurd h2 (not_lt.mpr (hcons.1 b hb))
      · cases hs
    · rcases List.mem_cons.mp hb with rfl | hb
      · rintro ⟨h1, -⟩
        have := gaps_start_ge rest (max c b.end_at) we s hs
        exact absurd h1 (not_lt.mpr (le_trans (le_max_right _ _) this))
      · exact ih _ _ hcons.2 s hs b hb

/-- Soundness of the slot pipeline: every produced slot fits the requested
duration, lies inside the window, and overlaps no buffered occupying interval
of the SKU. -/
theorem suggest_slots_sound (db : DB) (sku : String) (ws we dur : Int) :
    ∀ slot ∈ suggest_slots db sku ws we dur,
      dur ≤ slot.end_at - slot.start_at ∧ ws ≤ slot.start_at ∧ slot.end_at ≤ we ∧
      ∀ row ∈ db, row.sku = sku → occupiesB row = true →
        ¬ rangesOverlap ⟨bufferedStart row, bufferedEnd row⟩ slot := by
  intro slot hslot
  unfold suggest_slots at hslot
  rw [List.mem_filter, decide_eq_true_eq] at hslot
  obtain ⟨hgap, hdur⟩ := hslot
  have hsorted0 : SortedByStart (sortByStart (occupiedRanges db sku ws we)) :=
    sortByStart_sorted _
  have hmsorted : SortedByStart
      (merge_time_ranges (sortByStart (occupiedRanges db sku ws we))) :=
    merge_sorted hsorted0
  have hoccwin : ∀ t ∈ occupiedRanges db sku ws we,
      ws < t.end_at ∧ t.start_at < we := by
    intro t ht
    unfold occupiedRanges at ht
    rw [List.mem_filter] at ht
    have := ht.2
    simp only [Bool.not_eq_true', Bool.or_eq_false_iff, decide_eq_false_iff_not,
      not_le] at this
    exact this
  have hstarts : ∀ b ∈ merge_time_ranges (sortByStart (occupiedRanges db sku ws we)),
      b.start_at < we := by
    intro b hb
    obtain ⟨r, hr, hbr⟩ := merge_starts b hb
    rw [hbr]
    exact (hoccwin r (mem_sortByStart.mp hr)).2
  refine ⟨hdur, gaps_start_ge _ _ _ slot hgap, gaps_end_le _ _ _ hstarts slot hgap, ?_⟩
  intro row hrow hsku hocc
  by_cases hkeep : bufferedEnd row ≤ ws ∨ we ≤ bufferedStart row
  · rintro ⟨h1, h2⟩
    rcases hkeep with hk | hk
    · exact absurd h2
        (not_lt.mpr (le_trans hk (gaps_start_ge _ _ _ slot hgap)))
    · exact absurd h1
        (not_lt.mpr (le_trans (gaps_end_le _ _ _ hstarts slot hgap) hk))
  · have hmem : (⟨bufferedStart row, bufferedEnd row⟩ : TimeRange) ∈
        occupiedRanges db sku ws we := by
      push_neg at hkeep
      unfold occupiedRanges
      rw [List.mem_filter]
      refine ⟨?_, ?_⟩
      · rw [List.mem_map]
        exact ⟨row, List.mem_filter.mpr ⟨hrow, by simp [hsku, hocc]⟩, rfl⟩
      · simp only [Bool.not_eq_true', Bool.or_eq_false_iff, decide_eq_false_iff_not,
          not_le]
        exact ⟨hkeep.1, hkeep.2⟩
    obtain ⟨blk, hblk, hbs, hbe⟩ := merge_covers hsorted0 _ (mem_sortByStart.mpr hmem)
    have hdisj := gaps_disjoint _ _ _ hmsorted slot hgap blk hblk
    rintro ⟨h1, h2⟩
    exact hdisj ⟨lt_of_lt_of_le h2 hbe, lt_of_le_of_lt hbs h1⟩

/-- C4: on the main path (non-empty window), `suggest_time_slots_text`
inflates each occupying order's interval by its buffer on both ends, discards
inflated intervals that do not intersect the half-open window, and renders
exactly the gaps of the merged occupied timeline within the window whose
length is at least the requested duration; no listed slot overlaps any
buffered occupying interval of the SKU. -/
theorem suggest_slots_pipeline (now : Int) (db : DB) (sku0 : String)
    (es_in : PyDateTime) (ee_in : Option PyDateTime) (wd : Int) (ws we dur : Int)
    (hv : valid_end_input es_in ee_in)
    (hws : ws = suggest_window_start now (iso_to_dt_utc es_in) (suggest_clamp_days wd))
    (hwe : we = suggest_window_end (suggest_expected_end (iso_to_dt_utc es_in) ee_in)
      (suggest_clamp_days wd))
    (hdur : dur = suggest_expected_end (iso_to_dt_utc es_in) ee_in - iso_to_dt_utc es_in)
    (hw : ws < we) :
    suggest_time_slots_text now db sku0 es_in ee_in wd =
      .ok (format_slots_text (strip_upper sku0) ws we
        (suggest_slots db (strip_upper sku0) ws we dur)) ∧
    ∀ slot ∈ suggest_slots db (strip_upper sku0) ws we dur,
      dur ≤ slot.end_at - slot.start_at ∧ ws ≤ slot.start_at ∧ slot.end_at ≤ we ∧
      ∀ row ∈ db, row.sku = strip_upper sku0 → occupiesB row = true →
        ¬ rangesOverlap ⟨bufferedStart row, bufferedEnd row⟩ slot := by
  subst hws hwe hdur
  refine ⟨?_, suggest_slots_sound db (strip_upper sku0) _ _ _⟩
  have hcond := not_le.mpr hw
  cases ee_in with
  | none =>
    unfold suggest_time_slots_text suggest_time_slots_text.suggestCore
    dsimp only
    rw [if_neg (by simpa [suggest_expected_end] using hcond)]
    rfl
  | some d =>
    unfold suggest_time_slots_text suggest_time_slots_text.suggestCore
    dsimp only
    rw [if_neg (not_le.mpr (show iso_to_dt_utc es_in < iso_to_dt_utc d from hv)),
      if_neg (by simpa [suggest_expected_end] using hcond)]
    rfl

/-- C4 witness: the concrete one-order store with a `[0, 1740)` window and a
3-hour request; the theorem applies with all hypotheses discharged. -/
theorem suggest_slots_pipeline_witness :
    suggest_time_slots_text 0 [wRow1] "A" ⟨120, none⟩ none 1 =
      .ok (format_slots_text (strip_upper "A") 0 1740
        (suggest_slots [wRow1] (strip_upper "A") 0 1740 180)) ∧
    ∀ slot ∈ suggest_slots [wRow1] (strip_upper "A") 0 1740 180,
      (180 : Int) ≤ slot.end_at - slot.start_at ∧ (0 : Int) ≤ slot.start_at ∧
      slot.end_at ≤ 1740 ∧
      ∀ row ∈ [wRow1], row.sku = strip_upper "A" → occupiesB row = true →
        ¬ rangesOverlap ⟨bufferedStart row, bufferedEnd row⟩ slot :=
  suggest_slots_pipeline 0 [wRow1] "A" ⟨120, none⟩ none 1 0 1740 180 trivial
    (by decide) (by decide) (by decide) (by decide)

/-- The exclusion-constraint conflict relation is symmetric. -/
theorem rowsConflict_comm (a b : OrderModel) : rowsConflict a b = rowsConflict b a := by
  unfold rowsConflict
  rw [Bool.eq_iff_iff]
  simp only [Bool.and_eq_true, decide_eq_true_eq, beq_iff_eq]
  constructor
  · rintro ⟨⟨⟨⟨h1, h2⟩, h3⟩, h4⟩, h5⟩
    exact ⟨⟨⟨⟨h1.symm, h3⟩, h2⟩, h5⟩, h4⟩
  · rintro ⟨⟨⟨⟨h1, h2⟩, h3⟩, h4⟩, h5⟩
    exact ⟨⟨⟨⟨h1.symm, h3⟩, h2⟩, h5⟩, h4⟩

/-- Appending a fresh, conflict-free row preserves the store invariant. -/
theorem dbInv_append {db : DB} {x : OrderModel} (hinv : DbInv db)
    (hid : ∀ r ∈ db, r.order_id ≠ x.order_id)
    (hconf : ∀ r ∈ db, rowsConflict r x = false) :
    DbInv (db ++ [x]) := by
  constructor
  · unfold UniqueIds
    rw [List.map_append, List.nodup_append]
    refine ⟨hinv.1, List.nodup_singleton _, ?_⟩
    intro i hi
    rw [List.mem_map] at hi
    obtain ⟨r, hr, hri⟩ := hi
    simp only [List.map_cons, List.map_nil, List.mem_singleton]
    rw [← hri]
    exact hid r hr
  · intro a ha b hb hne
    rcases List.mem_append.mp ha with ha1 | ha1 <;>
      rcases List.mem_append.mp hb with hb1 | hb1
    · exact hinv.2 a ha1 b hb1 hne
    · rw [List.mem_singleton.mp hb1]
      exact hconf a ha1
    · rw [List.mem_singleton.mp ha1, rowsConflict_comm]
      exact hconf b hb1
    · rw [List.mem_singleton.mp ha1, List.mem_singleton.mp hb1] at hne
      exact absurd rfl hne

/-- A successful store update keyed by the updated row's own id preserves the
store invariant: the exclusion check against every other row just succeeded,
and ids are untouched. -/
theorem dbUpdate_inv {db : DB} {oid : String} {u : OrderModel} {db' : DB}
    (h : dbUpdate db oid u = .ok db') (hu : u.order_id = oid)
    (hinv : DbInv db) : DbInv db' := by
  unfold dbUpdate at h
  split at h
  · simp at h
  · split at h
    · simp at h
    · rename_i hexc hchk
      simp only [Except.ok.injEq] at h
      subst h
      have hexc' : ∀ r ∈ db, r.order_id ≠ oid → rowsConflict r u = false := by
        intro r hr hrne
        by_contra hc
        rw [Bool.not_eq_false] at hc
        exact hexc (List.any_eq_true.mpr
          ⟨r, hr, by simp [beq_eq_false_iff_ne.mpr hrne, hc]⟩)
      constructor
      · unfold UniqueIds
        have hids : (replaceRow db oid u).map (fun r => r.order_id) =
            db.map fun r => r.order_id := by
          unfold replaceRow
          rw [List.map_map]
          apply List.map_congr_left
          intro r _
          by_cases hrid : (r.order_id == oid) = true
          · simp only [Function.comp_apply, hrid, if_true]
            rw [hu, beq_iff_eq.mp hrid]
          · simp only [Function.comp_apply, hrid]
            rw [if_neg (by simp [hrid])]
        rw [hids]
        exact hinv.1
      · intro a ha b hb hne
        unfold replaceRow at ha hb
        rw [List.mem_map] at ha hb
        obtain ⟨x, hx, hax⟩ := ha
        obtain ⟨y, hy, hby⟩ := hb
        by_cases hxid : (x.order_id == oid) = true <;>
          by_cases hyid : (y.order_id == oid) = true
        · rw [if_pos hxid] at hax
          rw [if_pos hyid] at hby
          rw [← hax, ← hby] at hne
          exact absurd rfl hne
        · rw [if_pos hxid] at hax
          rw [if_neg hyid] at hby
          rw [← hax, ← hby, rowsConflict_comm]
          exact hexc' y hy (by simpa using hyid)
        · rw [if_neg hxid] at hax
          rw [if_pos hyid] at hby
          rw [← hax, ← hby]
          exact hexc' x hx (by simpa using hxid)
        · rw [if_neg hxid] at hax
          rw [if_neg hyid] at hby
          rw [← hax, ← hby]
          exact hinv.2 x hx y hy (by rw [hax, hby]; exact hne)

/-- A successful create preserves the store invariant. -/
theorem add_order_inv {now : Int} {db : DB} {oid un uw sku : String}
    {s e : PyDateTime} {st : String} {bh : Option Int} {lc : Option String}
    {db' : DB} {o : Order}
    (h : add_order_to_db now db oid un uw sku s e st bh lc = .ok (db', o))
    (hinv : DbInv db) : DbInv db' := by
  obtain ⟨hfresh, hconf, hdb, -⟩ := add_ok_shape h
  subst hdb
  apply dbInv_append hinv
  · intro r hr hc
    have : (db.any fun y => y.order_id == oid) = true := by
      refine List.any_eq_true.mpr ⟨r, hr, ?_⟩
      rw [beq_iff_eq]
      simpa [newOrderRow] using hc
    rw [hfresh] at this
    cases this
  · intro r hr
    by_contra hc
    rw [Bool.not_eq_false] at hc
    have : (db.any fun y => rowsConflict y
        (newOrderRow oid un uw sku s e st bh lc)) = true := by
      refine List.any_eq_true.mpr ⟨r, hr, ?_⟩
      rw [show rowsConflict r (newOrderRow oid un uw sku s e st bh lc) =
          rowsConflict r { newOrderRow oid un uw sku s e st bh lc with
            created_at := now, updated_at := now } from rfl]
      exact hc
    rw [hconf] at this
    cases this

/-- A successful edit preserves the store invariant. -/
theorem edit_order_inv {db : DB} {oid : String} {patch : Patch} {db' : DB}
    {o : Order} (h : edit_order_from_db db oid patch = .ok (db', o))
    (hinv : DbInv db) : DbInv db' := by
  obtain ⟨existing, hfind, -, hupd⟩ := edit_ok_shape h
  have hid : (applyPatchRow existing patch).order_id = oid := by
    have := List.find?_some hfind
    rw [beq_iff_eq] at this
    simpa [applyPatchRow] using this
  exact dbUpdate_inv hupd hid hinv

/-- Any sequence of service creates and edits preserves the store invariant;
failing operations leave the store untouched by construction of `runOps`. -/
theorem runOps_inv (now : Int) (ops : List SvcOp) :
    ∀ db : DB, DbInv db → DbInv (runOps now db ops) := by
  induction ops with
  | nil => intro db h; exact h
  | cons op rest ih =>
    intro db h
    unfold runOps
    cases hop : applySvcOp now db op with
    | error e => exact ih db h
    | ok p =>
      obtain ⟨db2, o2⟩ := p
      cases op with
      | create oid un uw sku s e st bh lc => exact ih db2 (add_order_inv hop h)
      | edit oid patch => exact ih db2 (edit_order_inv hop h)

/-- C1: starting from any store satisfying the table constraints, after any
sequence of creates and edits (failed ones leave the store unchanged), the
buffered intervals of occupying orders of the same SKU are pairwise
non-overlapping; a create whose row would overlap an existing occupying row
of its SKU fails with `ConflictError`, as does an edit whose patched row
would overlap another occupying row of the SKU. -/
theorem overlap_exclusion :
    (∀ (now : Int) (db : DB) (ops : List SvcOp), DbInv db →
      OverlapFree (runOps now db ops)) ∧
    (∀ (now : Int) (db : DB) (oid un uw sku : String) (s e : PyDateTime)
        (st : String) (bh : Option Int) (lc : Option String),
      iso_to_dt_utc s < iso_to_dt_utc e →
      (∃ other ∈ db, rowsConflict other
        (newOrderRow oid un uw sku s e st bh lc) = true) →
      add_order_to_db now db oid un uw sku s e st bh lc = .error .conflictError) ∧
    ∀ (db : DB) (oid : String) (r : OrderModel) (patch : Patch),
      db.find? (fun x => x.order_id == oid) = some r →
      r.status ∉ TERMINAL_STATUSES →
      patch.isEmptyAll = false →
      patch.isEmptyAfterStrip = false →
      patchedStart r patch < patchedEnd r patch →
      (∃ other ∈ db, other.order_id ≠ oid ∧
        rowsConflict other (applyPatchRow r patch) = true) →
      edit_order_from_db db oid patch = .error .conflictError := by
  refine ⟨?_, ?_, ?_⟩
  · intro now db ops hinv
    exact (runOps_inv now ops db hinv).2
  · intro now db oid un uw sku s e st bh lc hrange hconf
    unfold add_order_to_db
    rw [if_neg (not_le.mpr hrange)]
    unfold dbInsert
    by_cases hid : (db.any fun r => r.order_id ==
        (newOrderRow oid un uw sku s e st bh lc).order_id) = true
    · rw [if_pos hid]
    · rw [if_neg hid, if_pos (List.any_eq_true.mpr hconf)]
  · intro db oid r patch hfind hterm hall hstrip hrange hconf
    have htime : ((patch.start_at.isSome || patch.end_at.isSome) &&
        decide (patchedStart r patch ≥ patchedEnd r patch)) = false := by
      simp [not_le.mpr hrange]
    have hexc : (db.any fun x => !(x.order_id == oid) &&
        rowsConflict x (applyPatchRow r patch)) = true := by
      obtain ⟨x, hx, hxe, hxc⟩ := hconf
      exact List.any_eq_true.mpr
        ⟨x, hx, by simp [beq_eq_false_iff_ne.mpr hxe, hxc]⟩
    simp only [edit_order_from_db, hall, hfind, hterm, hstrip, htime,
      Bool.false_eq_true, if_false]
    unfold dbUpdate
    rw [if_pos hexc]

/-- C1 witness: two overlapping creates from the empty store leave an
overlap-free store; a create over `wRow1`'s slot and an edit moving `wRow2`
onto `wRow1`'s slot both fail with `ConflictError`. -/
theorem overlap_exclusion_witness :
    OverlapFree (runOps 0 [] wOps) ∧
    add_order_to_db 0 [wRow1] "O9" "u" "w" "A" ⟨150, none⟩ ⟨250, none⟩ "reserved"
      (some 0) none = .error .conflictError ∧
    edit_order_from_db [wRow1, wRow2] "O2"
      { start_at := some ⟨150, none⟩, end_at := some ⟨250, none⟩ } =
      .error .conflictError :=
  ⟨overlap_exclusion.1 0 [] wOps (by decide),
    overlap_exclusion.2.1 0 [wRow1] "O9" "u" "w" "A" ⟨150, none⟩ ⟨250, none⟩
      "reserved" (some 0) none (by decide) (by decide),
    overlap_exclusion.2.2 [wRow1, wRow2] "O2" wRow2
      { start_at := some ⟨150, none⟩, end_at := some ⟨250, none⟩ }
      (by decide) (by decide) (by decide) (by decide) (by decide) (by decide)⟩

end Theorems

end RentingSystem

